import Mathlib

/-!
# Verification of the `temps` weather-telemetry notebook

A shallow embedding of the notebook `temps.ipynb` (nickwhitt/temps).
The notebook declares a two-table relational schema (`feeders`,
`temps`), an ingest function `store_packet` that inserts one reading
inside a transaction, and a query function `low_by_date` that selects
the minimum celsius value for a feeder within one calendar day.

The relational store itself (SQLAlchemy engine + database) is external
to the repository; its behaviour at the granularity the claims need
(foreign-key and NOT NULL enforcement on insert, `create_all`
check-first table creation, `min` aggregation ignoring NULLs) is
modelled explicitly below, following the spec where the repository
contains no code for it.

Timestamps are modelled as microseconds since an epoch (`Nat`), so that
Python `datetime.time.min` (00:00:00.000000) and `datetime.time.max`
(23:59:59.999999) are the first and last microsecond of a day.
Temperatures are modelled as rationals.
-/

/-- Microseconds in one calendar day (`datetime` resolution is 1 µs). -/
def usPerDay : Nat := 86400 * 1000000

/-- `datetime.combine(d, time.min)`: first microsecond of day `d`. -/
def startOfDay (d : Nat) : Nat := d * usPerDay

/-- `datetime.combine(d, time.max)`: last microsecond of day `d`
(`time.max` is 23:59:59.999999). -/
def endOfDay (d : Nat) : Nat := d * usPerDay + (usPerDay - 1)

/-- The calendar day a timestamp falls on (`date-of`). -/
def dateOf (t : Nat) : Nat := t / usPerDay

/-- A row of the `feeders` table:
`id` (integer primary key), `name` (text), `lat`/`long` (float),
all non-key columns nullable. -/
structure FeederRow where
  id : Nat
  name : Option String
  lat : Option Rat
  long : Option Rat
deriving Repr, DecidableEq

/-- A row of the `temps` table:
`id` (integer primary key), `feeder_id` (nullable foreign key to
`feeders.id`), `ts` (datetime, NOT NULL — SQL values are nullable at
the type level, the constraint is enforced on insert), `celsius`
(nullable float), `condition` (nullable text). -/
structure TempRow where
  id : Nat
  feeder_id : Option Nat
  ts : Option Nat
  celsius : Option Rat
  condition : Option String
deriving Repr, DecidableEq

/-- The database state behind the engine: the two tables, plus the
next system-assigned primary key for each (integer primary keys are
auto-assigned by the store, starting at 1). -/
structure DB where
  feeders : List FeederRow
  temps : List TempRow
  nextFeederId : Nat
  nextTempId : Nat
deriving Repr, DecidableEq

/-- The empty database: both tables exist (after `metadata.create_all`)
and hold no rows. -/
def DB.init : DB := ⟨[], [], 1, 1⟩

/-- Errors surfaced by the store, per the spec's failure taxonomy:
`ConstraintViolation` (foreign key absent / malformed row) and
`ConnectivityError` (store unreachable). The pure model is always
reachable, so only the former ever arises. -/
inductive DBError where
  | constraintViolation
  | connectivityError
deriving Repr, DecidableEq

/-- The payload dict passed to `store_packet`: `ts` (required by the
schema's NOT NULL constraint, but the caller may omit it, hence
`Option`), `celsius` and `condition` optional. -/
structure Packet where
  ts : Option Nat
  celsius : Option Rat
  condition : Option String
deriving Repr, DecidableEq

/-- Modelled from the spec: the external store's `INSERT INTO temps`.
The repository delegates constraint checking to the database engine
(not code under `src/`); per the spec, the store enforces the NOT NULL
constraint on `ts` and the declared foreign key
`feeder_id → feeders.id`, raising `ConstraintViolation` when either is
violated, and otherwise appends one row with a system-assigned id. -/
def insertTemp (db : DB) (fid : Option Nat) (p : Packet) :
    Except DBError DB :=
  match p.ts with
  | none => .error .constraintViolation
  | some t =>
    match fid with
    | none =>
      .ok { db with
            temps := db.temps ++
              [⟨db.nextTempId, none, some t, p.celsius, p.condition⟩],
            nextTempId := db.nextTempId + 1 }
    | some f =>
      if db.feeders.any (fun fr => fr.id == f) then
        .ok { db with
              temps := db.temps ++
                [⟨db.nextTempId, some f, some t, p.celsius, p.condition⟩],
              nextTempId := db.nextTempId + 1 }
      else .error .constraintViolation

/-- `store_packet(feeder_id, data)`: opens a transaction
(`with engine.begin()`), executes one insert of
`dict(feeder_id=feeder_id, **data)` into `temps`, commits on normal
completion and rolls back (returning the unchanged state) while
propagating the error otherwise. -/
def store_packet (feeder_id : Nat) (data : Packet) (db : DB) :
    DB × Option DBError :=
  match insertTemp db (some feeder_id) data with
  | .ok db' => (db', none)
  | .error e => (db, some e)

/-- SQL `ts BETWEEN lo AND hi`: inclusive at both bounds; a NULL
timestamp compares to NULL and the row is not selected. -/
def tsBetween (lo hi : Nat) : Option Nat → Bool
  | some t => decide (lo ≤ t) && decide (t ≤ hi)
  | none => false

/-- The `WHERE` clause of `low_by_date`'s query:
`temps.c.feeder_id == feeder AND temps.c.ts BETWEEN start AND end`
(SQL `BETWEEN` is inclusive; `NULL = feeder` never matches). -/
def rowMatches (feeder d : Nat) (r : TempRow) : Bool :=
  r.feeder_id == some feeder && tsBetween (startOfDay d) (endOfDay d) r.ts

/-- SQL `min` aggregation over the selected `celsius` column:
NULL values are ignored; the result is NULL when no non-NULL value
remains. -/
def sqlMin : List Rat → Option Rat
  | [] => none
  | x :: xs =>
    match sqlMin xs with
    | none => some x
    | some m => some (min x m)

/-- The non-NULL `celsius` values of the readings of feeder `f` whose
timestamp falls within day `d` — the multiset `low_by_date` aggregates. -/
def dayVals (f d : Nat) (db : DB) : List Rat :=
  (db.temps.filter (rowMatches f d)).filterMap TempRow.celsius

/-- `low_by_date(feeder, ts_start)`: opens a connection, executes
`SELECT min(temps.celsius) WHERE feeder_id = feeder AND ts BETWEEN
start-of-day AND end-of-day`, and returns the scalar together with the
(unchanged — the connection block issues no write and ends in ROLLBACK)
database state. -/
def low_by_date (feeder : Nat) (d : Nat) (db : DB) : DB × Option Rat :=
  (db, sqlMin (dayVals feeder d db))

/-! ## Schema catalog (`metadata` / `create_all`) -/

/-- A table definition declared in the `MetaData` catalog: a name and
its column names. -/
structure TableDef where
  name : String
  columns : List String
deriving Repr, DecidableEq

/-- The `feeders` table declaration. -/
def feedersTable : TableDef := ⟨"feeders", ["id", "name", "lat", "long"]⟩

/-- The `temps` table declaration. -/
def tempsTable : TableDef :=
  ⟨"temps", ["id", "feeder_id", "ts", "celsius", "condition"]⟩

/-- The `MetaData` catalog of the notebook: the two declared tables. -/
def metadata : List TableDef := [feedersTable, tempsTable]

/-- Modelled from the spec: `metadata.create_all(engine)` — the
repository delegates DDL emission to the external library, which
checks (`PRAGMA table_info`) for each declared table whether a table
of that name already exists and issues `CREATE TABLE` only for the
missing ones, leaving existing tables untouched. The database's table
set is modelled as the list of tables present, in creation order. -/
def create_all (schema : List TableDef) (existing : List TableDef) :
    List TableDef :=
  existing ++
    schema.filter (fun t => !(existing.any (fun e => e.name == t.name)))

/-! ## Reachable database states and integrity -/

/-- Modelled from the spec: feeder provisioning. The spec's data model
says a `Feeder` row is "created once per physical device" with a
unique, system-assigned identifier; the notebook contains no code for
it (the `feeders` table is only declared and created). One row is
appended with the next system-assigned primary key. -/
def insertFeeder (db : DB) (fname : Option String) (lat long : Option Rat) :
    DB :=
  { db with
    feeders := db.feeders ++ [⟨db.nextFeederId, fname, lat, long⟩],
    nextFeederId := db.nextFeederId + 1 }

/-- The database states reachable by the program's operations: the
freshly created schema, feeder provisioning, and `store_packet`
(`low_by_date` leaves the state unchanged, so it adds no states). -/
inductive Reachable : DB → Prop
  | init : Reachable DB.init
  | feeder (db : DB) (fname : Option String) (lat long : Option Rat) :
      Reachable db → Reachable (insertFeeder db fname lat long)
  | packet (db : DB) (f : Nat) (p : Packet) :
      Reachable db → Reachable ((store_packet f p db).1)

/-- Referential and NOT NULL integrity of the `temps` table: every row
has a non-null timestamp and a `feeder_id` that matches exactly one
row of the `feeders` table. -/
def TempsIntegrity (db : DB) : Prop :=
  ∀ r ∈ db.temps, r.ts ≠ none ∧
    ∃ fid, r.feeder_id = some fid ∧
      (db.feeders.filter (fun fr => fr.id == fid)).length = 1

/-- Well-formedness of the `feeders` table: all primary keys are below
the next system-assigned key, and primary keys are pairwise distinct. -/
def FeedersInv (db : DB) : Prop :=
  (∀ fr ∈ db.feeders, fr.id < db.nextFeederId) ∧
    db.feeders.Pairwise (fun a b => a.id ≠ b.id)

/-! ## Concrete witness databases -/

/-- A database holding one feeder (id 1) and no readings. -/
def feederDb : DB := ⟨[⟨1, some "rooftop", some 10, some 20⟩], [], 2, 1⟩

/-- `feederDb` after ingesting three readings with celsius 30, 10, 20,
all for feeder 1 on day 0. -/
def dbC3 : DB :=
  (store_packet 1 ⟨some 1000, some 20, none⟩
    ((store_packet 1 ⟨some 500, some 10, none⟩
      ((store_packet 1 ⟨some 100, some 30, none⟩ feederDb).1)).1)).1

/-- A database whose only reading belongs to feeder 1; feeder 5 does
not exist. -/
def dbC6 : DB :=
  ⟨[⟨1, none, none, none⟩], [⟨1, some 1, some 5, some 20, none⟩], 2, 2⟩

/-- A database whose only reading matches feeder 1 on day 0 but has a
NULL `celsius`. -/
def dbC10 : DB :=
  ⟨[⟨1, none, none, none⟩], [⟨1, some 1, some 5, none, some "fog"⟩], 2, 2⟩

/-- A reachable database: provision one feeder, ingest one packet. -/
def dbC7 : DB :=
  (store_packet 1 ⟨some 42, some 16, some "clear"⟩
    (insertFeeder DB.init (some "north") none none)).1

/-! ## Theorems -/

/-- After one application, every declared table name is present. -/
theorem create_all_covers (schema existing : List TableDef) :
    ∀ t ∈ schema,
      (create_all schema existing).any (fun e => e.name == t.name) = true := by
  intro t ht
  by_cases hE : existing.any (fun e => e.name == t.name) = true
  · rw [List.any_eq_true] at hE ⊢
    obtain ⟨e, he, heq⟩ := hE
    exact ⟨e, List.mem_append_left _ he, heq⟩
  · rw [List.any_eq_true]
    refine ⟨t, ?_, by simp⟩
    refine List.mem_append_right _ ?_
    refine List.mem_filter.mpr ⟨ht, ?_⟩
    simp only [Bool.not_eq_true'] at hE
    simp [hE]

/-- `sqlMin` of a non-empty list is an element of the list and a lower
bound for it. -/
theorem sqlMin_spec (l : List Rat) (h : l ≠ []) :
    ∃ m, sqlMin l = some m ∧ m ∈ l ∧ ∀ v ∈ l, m ≤ v := by
  induction l with
  | nil => exact absurd rfl h
  | cons x xs ih =>
    cases xs with
    | nil =>
      refine ⟨x, by simp [sqlMin], by simp, ?_⟩
      intro v hv
      simp at hv
      simp [hv]
    | cons y ys =>
      obtain ⟨m, hm, hmem, hlb⟩ := ih (by simp)
      refine ⟨min x m, by rw [sqlMin, hm], ?_, ?_⟩
      · rcases le_total x m with hle | hle
        · simp [min_eq_left hle]
        · rw [min_eq_right hle]
          exact List.mem_cons_of_mem _ hmem
      · intro v hv
        rcases List.mem_cons.mp hv with rfl | hv
        · exact min_le_left _ _
        · exact le_trans (min_le_right _ _) (hlb v hv)

/-- `sqlMin` of the empty list is NULL. -/
theorem sqlMin_nil : sqlMin [] = none := rfl

/-- C8: applying the schema catalog (`metadata.create_all`) is
idempotent — it creates only missing tables, leaves existing tables
untouched, and a second application with the same schema changes
nothing. -/
theorem create_all_idempotent (schema existing : List TableDef) :
    create_all schema (create_all schema existing) =
        create_all schema existing ∧
      (∀ e ∈ existing, e ∈ create_all schema existing) ∧
      ∀ t ∈ create_all schema existing, t ∈ existing ∨ t ∈ schema := by
  refine ⟨?_, ?_, ?_⟩
  · have hnil : schema.filter
        (fun t =>
          !((create_all schema existing).any (fun e => e.name == t.name)))
        = [] := by
      rw [List.filter_eq_nil_iff]
      intro t ht
      simp [create_all_covers schema existing t ht]
    conv_lhs => rw [create_all]
    rw [hnil, List.append_nil]
  · intro e he
    exact List.mem_append_left _ he
  · intro t ht
    rcases List.mem_append.mp ht with h | h
    · exact Or.inl h
    · exact Or.inr (List.mem_filter.mp h).1

/-- C1: `store_packet` is atomic — either it succeeds and exactly one
new row is appended to `temps` (with `feeders` untouched), or it fails
and the returned state is the unchanged input state (the transaction
opened by `with engine.begin()` rolls back on the error path and
commits otherwise). -/
theorem store_packet_atomic (f : Nat) (p : Packet) (db : DB) :
    (∃ r, (store_packet f p db).1.temps = db.temps ++ [r] ∧
        (store_packet f p db).1.feeders = db.feeders ∧
        (store_packet f p db).2 = none) ∨
      ((store_packet f p db).1 = db ∧
        ∃ e, (store_packet f p db).2 = some e) := by
  cases hts : p.ts with
  | none =>
    right
    refine ⟨?_, .constraintViolation, ?_⟩ <;>
      simp [store_packet, insertTemp, hts]
  | some t =>
    by_cases hf : db.feeders.any (fun fr => fr.id == f) = true
    · left
      exact ⟨⟨db.nextTempId, some f, some t, p.celsius, p.condition⟩,
        by simp [store_packet, insertTemp, hts, hf],
        by simp [store_packet, insertTemp, hts, hf],
        by simp [store_packet, insertTemp, hts, hf]⟩
    · right
      refine ⟨?_, .constraintViolation, ?_⟩ <;>
        simp [store_packet, insertTemp, hts, hf]

/-- C2: `store_packet` with a `feeder_id` matching no row of the
`feeders` table surfaces a `ConstraintViolation` and leaves the state
(in particular the `temps` row count) unchanged. -/
theorem store_packet_unknown_feeder (f : Nat) (p : Packet) (db : DB)
    (h : ∀ fr ∈ db.feeders, fr.id ≠ f) :
    store_packet f p db = (db, some DBError.constraintViolation) ∧
      (store_packet f p db).1.temps.length = db.temps.length := by
  have hf : db.feeders.any (fun fr => fr.id == f) = false := by
    rw [List.any_eq_false]
    intro fr hfr
    simp [h fr hfr]
  have h1 : store_packet f p db = (db, some DBError.constraintViolation) := by
    cases hts : p.ts <;> simp [store_packet, insertTemp, hts, hf]
  exact ⟨h1, by rw [h1]⟩

/-- Concrete run of C2: the store holds one feeder (id 1); ingesting a
packet for the unknown feeder 7 fails with `ConstraintViolation` and
leaves `temps` empty. -/
theorem store_packet_unknown_feeder_witness :
    store_packet 7 ⟨some 0, some 20, none⟩ feederDb =
        (feederDb, some DBError.constraintViolation) ∧
      (store_packet 7 ⟨some 0, some 20, none⟩ feederDb).1.temps.length =
        feederDb.temps.length :=
  store_packet_unknown_feeder 7 ⟨some 0, some 20, none⟩ feederDb (by decide)

/-- C9: `low_by_date` performs no mutation — the database state (hence
both the `feeders` and `temps` tables) after the call is the state
before it. -/
theorem low_by_date_pure (feeder d : Nat) (db : DB) :
    (low_by_date feeder d db).1 = db ∧
      (low_by_date feeder d db).1.feeders = db.feeders ∧
      (low_by_date feeder d db).1.temps = db.temps :=
  ⟨rfl, rfl, rfl⟩

/-- C6: when no stored reading matches the feeder and day — in
particular when the feeder does not exist at all — `low_by_date`
returns the "no data" sentinel (`none`) instead of raising an error. -/
theorem low_by_date_no_match (feeder d : Nat) (db : DB)
    (h : ∀ r ∈ db.temps, rowMatches feeder d r = false) :
    (low_by_date feeder d db).2 = none := by
  have hnil : db.temps.filter (rowMatches feeder d) = [] := by
    rw [List.filter_eq_nil_iff]
    intro r hr
    simp [h r hr]
  simp [low_by_date, dayVals, hnil, sqlMin]

/-- Concrete run of C6: feeder 5 exists nowhere in `dbC6` (neither in
`feeders` nor among readings), and the query returns the sentinel. -/
theorem low_by_date_no_match_witness :
    (low_by_date 5 0 dbC6).2 = none :=
  low_by_date_no_match 5 0 dbC6 (by decide)

/-- C10: the "no data" sentinel is the null scalar (`none`), and it is
also returned when matching readings exist but all carry a NULL
`celsius` — such a day is indistinguishable from a day with no
readings. -/
theorem low_by_date_all_null (feeder d : Nat) (db : DB)
    (h : ∀ r ∈ db.temps, rowMatches feeder d r = true → r.celsius = none) :
    (low_by_date feeder d db).2 = none := by
  have hnil : dayVals feeder d db = [] := by
    rw [dayVals, List.filterMap_eq_nil_iff]
    intro r hr
    have hr' := List.mem_filter.mp hr
    exact h r hr'.1 hr'.2
  simp [low_by_date, hnil, sqlMin]

/-- Concrete run of C10: `dbC10` has exactly one reading matching
feeder 1 on day 0, its `celsius` is NULL, and the query returns the
same sentinel as an empty day. -/
theorem low_by_date_all_null_witness :
    (dbC10.temps.filter (rowMatches 1 0)).length = 1 ∧
      (low_by_date 1 0 dbC10).2 = none :=
  ⟨by decide, low_by_date_all_null 1 0 dbC10 (by decide)⟩

/-- C4: day-boundary behaviour of the query's `BETWEEN` window — a
reading at 23:59:59 on day `D` is selected by day `D`'s window and not
by day `D+1`'s, and a reading at 00:00:00 on day `D+1` is not selected
by day `D`'s window. -/
theorem day_boundary (feeder D id : Nat) (c : Option Rat)
    (cond : Option String) :
    rowMatches feeder D
        ⟨id, some feeder, some (D * usPerDay + 86399 * 1000000), c, cond⟩
        = true ∧
      rowMatches feeder (D + 1)
        ⟨id, some feeder, some (D * usPerDay + 86399 * 1000000), c, cond⟩
        = false ∧
      rowMatches feeder D
        ⟨id, some feeder, some ((D + 1) * usPerDay), c, cond⟩ = false := by
  refine ⟨?_, ?_, ?_⟩
  · simp [rowMatches, tsBetween, startOfDay, endOfDay, usPerDay]
  · have hlt : D * usPerDay + 86399 * 1000000 < startOfDay (D + 1) := by
      simp only [startOfDay, usPerDay]
      omega
    have hfalse :
        decide (startOfDay (D + 1) ≤ D * usPerDay + 86399 * 1000000) = false :=
      decide_eq_false (Nat.not_le.mpr hlt)
    simp [rowMatches, tsBetween, hfalse]
  · have hlt : endOfDay D < (D + 1) * usPerDay := by
      simp only [endOfDay, usPerDay]
      omega
    have hfalse : decide ((D + 1) * usPerDay ≤ endOfDay D) = false :=
      decide_eq_false (Nat.not_le.mpr hlt)
    simp [rowMatches, tsBetween, hfalse]

/-- C3: `low_by_date` returns the minimum of the celsius values of the
stored readings for the feeder within the day: whenever that set is
non-empty, the result is one of its values and a lower bound for all
of them. (The concrete [30, 10, 20] ↦ 10 instance is the witness.) -/
theorem low_by_date_min (feeder d : Nat) (db : DB)
    (h : dayVals feeder d db ≠ []) :
    ∃ m, (low_by_date feeder d db).2 = some m ∧ m ∈ dayVals feeder d db ∧
      ∀ v ∈ dayVals feeder d db, m ≤ v :=
  sqlMin_spec (dayVals feeder d db) h

/-- Concrete run of C3: after ingesting readings with celsius 30, 10,
20 for feeder 1 on day 0, the query returns 10, which is the minimum
of the day's values. -/
theorem low_by_date_min_witness :
    (low_by_date 1 0 dbC3).2 = some 10 ∧
      ∃ m, (low_by_date 1 0 dbC3).2 = some m ∧ m ∈ dayVals 1 0 dbC3 ∧
        ∀ v ∈ dayVals 1 0 dbC3, m ≤ v :=
  ⟨by decide, low_by_date_min 1 0 dbC3 (by decide)⟩

/-- C5: after a successful `store_packet(f, {ts: T, celsius: C})`, the
query `low_by_date(f, date-of(T))` returns a value that is at most
`C`. -/
theorem low_after_store (feeder T : Nat) (C : Rat) (cond : Option String)
    (db : DB)
    (h : (store_packet feeder ⟨some T, some C, cond⟩ db).2 = none) :
    ∃ m, (low_by_date feeder (dateOf T)
        (store_packet feeder ⟨some T, some C, cond⟩ db).1).2 = some m ∧
      m ≤ C := by
  by_cases hf : db.feeders.any (fun fr => fr.id == feeder) = true
  · have hdb : (store_packet feeder ⟨some T, some C, cond⟩ db).1.temps =
        db.temps ++ [⟨db.nextTempId, some feeder, some T, some C, cond⟩] := by
      simp [store_packet, insertTemp, hf]
    have hmatch : rowMatches feeder (dateOf T)
        ⟨db.nextTempId, some feeder, some T, some C, cond⟩ = true := by
      simp only [rowMatches, tsBetween, dateOf, startOfDay, endOfDay,
        beq_self_eq_true, Bool.true_and, Bool.and_eq_true,
        decide_eq_true_eq, usPerDay]
      omega
    have hC : C ∈ dayVals feeder (dateOf T)
        (store_packet feeder ⟨some T, some C, cond⟩ db).1 := by
      rw [dayVals, hdb]
      refine List.mem_filterMap.mpr
        ⟨⟨db.nextTempId, some feeder, some T, some C, cond⟩, ?_, rfl⟩
      exact List.mem_filter.mpr
        ⟨List.mem_append_right _ (List.mem_singleton.mpr rfl), hmatch⟩
    have hne : dayVals feeder (dateOf T)
        (store_packet feeder ⟨some T, some C, cond⟩ db).1 ≠ [] := by
      intro h0
      rw [h0] at hC
      exact (List.not_mem_nil C) hC
    obtain ⟨m, hm, _, hlb⟩ := sqlMin_spec _ hne
    exact ⟨m, hm, hlb C hC⟩
  · exfalso
    simp [store_packet, insertTemp, hf] at h

/-- Concrete run of C5: ingesting celsius 7 at timestamp 1234 for
feeder 1 succeeds, and the day's minimum is then at most 7. -/
theorem low_after_store_witness :
    ∃ m, (low_by_date 1 (dateOf 1234)
        (store_packet 1 ⟨some 1234, some 7, none⟩ feederDb).1).2 = some m ∧
      m ≤ 7 :=
  low_after_store 1 1234 7 none feederDb (by decide)

/-- In a feeder list with pairwise-distinct ids, a matching id selects
exactly one row. -/
theorem filter_id_length_one (l : List FeederRow) (fid : Nat)
    (hp : l.Pairwise (fun a b => a.id ≠ b.id))
    (ha : l.any (fun fr => fr.id == fid) = true) :
    (l.filter (fun fr => fr.id == fid)).length = 1 := by
  induction l with
  | nil => simp at ha
  | cons x xs ih =>
    obtain ⟨hx, hxs⟩ := List.pairwise_cons.mp hp
    by_cases hxf : x.id = fid
    · have hnil : xs.filter (fun fr => fr.id == fid) = [] := by
        rw [List.filter_eq_nil_iff]
        intro fr hfr
        have h1 := hx fr hfr
        simp only [beq_iff_eq]
        omega
      simp [List.filter_cons, hxf, hnil]
    · have hx' : (x.id == fid) = false := by simp [hxf]
      have ha' : xs.any (fun fr => fr.id == fid) = true := by
        rcases List.any_eq_true.mp ha with ⟨a, haa, hae⟩
        rcases List.mem_cons.mp haa with rfl | haa
        · simp [hxf] at hae
        · exact List.any_eq_true.mpr ⟨a, haa, hae⟩
      simp [List.filter_cons, hx', ih hxs ha']

/-- A feeder id whose filter is non-empty occurs in the list. -/
theorem exists_of_filter_id (l : List FeederRow) (fid : Nat)
    (h : 0 < (l.filter (fun fr => fr.id == fid)).length) :
    ∃ fr ∈ l, fr.id = fid := by
  cases hf : l.filter (fun fr => fr.id == fid) with
  | nil => rw [hf] at h; simp at h
  | cons a as =>
    have ha : a ∈ l.filter (fun fr => fr.id == fid) := by
      rw [hf]
      exact List.mem_cons_self a as
    have := List.mem_filter.mp ha
    exact ⟨a, this.1, by simpa using this.2⟩

/-- Every reachable state satisfies feeder-table well-formedness and
`temps` integrity. -/
theorem reachable_inv (db : DB) (h : Reachable db) :
    FeedersInv db ∧ TempsIntegrity db := by
  induction h with
  | init =>
    refine ⟨⟨?_, ?_⟩, ?_⟩ <;>
      simp [DB.init, FeedersInv, TempsIntegrity]
  | feeder db fname lat long hr ih =>
    obtain ⟨⟨hlt, hpw⟩, hti⟩ := ih
    refine ⟨⟨?_, ?_⟩, ?_⟩
    · intro fr hfr
      simp only [insertFeeder] at hfr ⊢
      rcases List.mem_append.mp hfr with hfr | hfr
      · exact Nat.lt_succ_of_lt (hlt fr hfr)
      · rcases List.mem_singleton.mp hfr with rfl
        simp
    · simp only [insertFeeder]
      rw [List.pairwise_append]
      refine ⟨hpw, List.pairwise_singleton _ _, ?_⟩
      intro a ha b hb
      rcases List.mem_singleton.mp hb with rfl
      have := hlt a ha
      simp only []
      omega
    · intro r hr'
      have hr2 : r ∈ db.temps := by simpa [insertFeeder] using hr'
      obtain ⟨hts0, fid, hfid, hcnt⟩ := hti r hr2
      refine ⟨hts0, fid, hfid, ?_⟩
      obtain ⟨fr0, hfr0, hfr0id⟩ :=
        exists_of_filter_id db.feeders fid (by omega)
      have hfidlt : fid < db.nextFeederId := hfr0id ▸ hlt fr0 hfr0
      simp only [insertFeeder, List.filter_append]
      have hone : ([(⟨db.nextFeederId, fname, lat, long⟩ : FeederRow)].filter
          (fun fr => fr.id == fid)) = [] := by
        simp only [List.filter_cons, List.filter_nil]
        have : ((⟨db.nextFeederId, fname, lat, long⟩ : FeederRow).id == fid)
            = false := by
          simp only [beq_eq_false_iff_ne, ne_eq]
          omega
        rw [this]
        simp
      rw [hone, List.append_nil]
      exact hcnt
  | packet db f p hr ih =>
    obtain ⟨⟨hlt, hpw⟩, hti⟩ := ih
    cases hts : p.ts with
    | none =>
      have hstate : (store_packet f p db).1 = db := by
        simp [store_packet, insertTemp, hts]
      rw [hstate]
      exact ⟨⟨hlt, hpw⟩, hti⟩
    | some t =>
      by_cases hf : db.feeders.any (fun fr => fr.id == f) = true
      · have hstate : (store_packet f p db).1 =
            { db with
              temps := db.temps ++
                [⟨db.nextTempId, some f, some t, p.celsius, p.condition⟩],
              nextTempId := db.nextTempId + 1 } := by
          simp [store_packet, insertTemp, hts, hf]
        rw [hstate]
        refine ⟨⟨hlt, hpw⟩, ?_⟩
        intro r hrr
        simp only [] at hrr
        rcases List.mem_append.mp hrr with hrr | hrr
        · exact hti r hrr
        · rcases List.mem_singleton.mp hrr with rfl
          exact ⟨by simp, f, rfl, filter_id_length_one db.feeders f hpw hf⟩
      · have hstate : (store_packet f p db).1 = db := by
          simp [store_packet, insertTemp, hts, hf]
        rw [hstate]
        exact ⟨⟨hlt, hpw⟩, hti⟩

/-- C7: in every database state reachable by the program's operations,
every `temps` row references exactly one existing `feeders` row
(referential integrity of `feeder_id`) and carries a non-null
timestamp. -/
theorem reachable_integrity (db : DB) (h : Reachable db) :
    TempsIntegrity db :=
  (reachable_inv db h).2

/-- Concrete run of C7: provision a feeder, ingest one packet; the
resulting state satisfies the integrity invariant. -/
theorem reachable_integrity_witness : TempsIntegrity dbC7 :=
  reachable_integrity dbC7
    (Reachable.packet _ 1 ⟨some 42, some 16, some "clear"⟩
      (Reachable.feeder _ (some "north") none none Reachable.init))
